import Mathlib

/-!
Verification of the conversation core of llm-conversation-ts.

The definitions below are a shallow embedding of the TypeScript source:
the retry wrapper (src/retry-utils.ts), the history manager
(src/history.ts), the conversation orchestrator loop and the transcript
assembly (src/conversation.ts).  JavaScript strings are modelled by Lean
strings (all the strings involved are ASCII, so UTF-16 code-unit order
coincides with character order), numbers by Nat or Int with an Option
wrapper where NaN or undefined can occur, and the file system by explicit
lists of file entries.
-/

/-! ## Character-list string helpers

JavaScript String.prototype.startsWith, endsWith, includes, and the
default Array.prototype.sort comparator compare strings by code units.
We model them on the character lists underlying Lean strings. -/

/-- Tests whether the first list is a leading segment of the second
(model of JavaScript startsWith, applied to pattern and target). -/
def listLeads : List Char → List Char → Bool
  | [], _ => true
  | _ :: _, [] => false
  | a :: as, b :: bs => a == b && listLeads as bs

/-- Model of JavaScript String.prototype.startsWith. -/
def strStartsWith (s pat : String) : Bool :=
  listLeads pat.data s.data

/-- Model of JavaScript String.prototype.endsWith. -/
def strEndsWith (s pat : String) : Bool :=
  listLeads pat.data.reverse s.data.reverse

/-- Tests whether the pattern occurs as a contiguous segment of the list
(model of JavaScript String.prototype.includes). -/
def listContainsSub (pat : List Char) : List Char → Bool
  | [] => listLeads pat []
  | c :: t => listLeads pat (c :: t) || listContainsSub pat t

/-- Model of JavaScript String.prototype.includes. -/
def strIncludes (s pat : String) : Bool :=
  listContainsSub pat.data s.data

/-- Code-unit lexicographic order on character lists, the order used by
the default JavaScript Array.prototype.sort comparator on strings. -/
def listLeB : List Char → List Char → Bool
  | [], _ => true
  | _ :: _, [] => false
  | a :: as, b :: bs =>
    if a.toNat < b.toNat then true
    else if b.toNat < a.toNat then false
    else listLeB as bs

/-- Lexicographic string comparison used to model the default sort. -/
def strLeB (a b : String) : Bool := listLeB a.data b.data

theorem listLeads_append_same (p a b : List Char) :
    listLeads (p ++ a) (p ++ b) = listLeads a b := by
  induction p with
  | nil => rfl
  | cons c cs ih => simp [listLeads, ih]

theorem listLeads_self_append (p a : List Char) :
    listLeads p (p ++ a) = true := by
  induction p with
  | nil => rfl
  | cons c cs ih => simp [listLeads, ih]

theorem listLeB_append_same (p a b : List Char) :
    listLeB (p ++ a) (p ++ b) = listLeB a b := by
  induction p with
  | nil => rfl
  | cons c cs ih => simp [listLeB, ih]

/-! ## Retry wrapper (src/retry-utils.ts)

The source wraps p-retry (version 6).  In p-retry the resolved option
retries = r means the operation may run r + 1 times in total: the initial
attempt plus up to r retries.  After every failed attempt the source's
onFailedAttempt callback inspects the error message: if it mentions one of
the retryable status codes it returns (letting p-retry continue), otherwise
it throws AbortError, which makes p-retry reject at once with the original
error.  When retries are exhausted p-retry rejects with the last error. -/

/-- RetryOptions from src/retry-utils.ts; a field holds none when the
caller leaves the corresponding JavaScript property undefined. -/
structure RetryOptions where
  retries : Option Nat := none
  minTimeout : Option Nat := none
  maxTimeout : Option Nat := none
  factor : Option Nat := none
  randomize : Option Bool := none
deriving DecidableEq, Repr

/-- DEFAULT_RETRY_OPTIONS from src/retry-utils.ts. -/
def DEFAULT_RETRY_OPTIONS : RetryOptions :=
  { retries := some 5, minTimeout := some 1000, maxTimeout := some 30000,
    factor := some 2, randomize := some true }

/-- JavaScript `x || d` on an optional number: undefined and 0 are falsy
and fall back to the default. -/
def jsOrNum (v : Option Nat) (d : Nat) : Nat :=
  match v with
  | none => d
  | some n => if n = 0 then d else n

/-- JavaScript `x ?? d` on an optional boolean: only undefined falls back. -/
def jsNullishBool (v : Option Bool) (d : Bool) : Bool := v.getD d

/-- The fully resolved options handed to p-retry. -/
structure ResolvedRetryOptions where
  retries : Nat
  minTimeout : Nat
  maxTimeout : Nat
  factor : Nat
  randomize : Bool
deriving DecidableEq, Repr

/-- The option resolution performed inside withRetry: every numeric field
goes through `||` against the defaults 5, 1000, 30000 and 2, while
randomize goes through `??` against true. -/
def resolveRetryOptions (o : RetryOptions) : ResolvedRetryOptions :=
  { retries := jsOrNum o.retries 5
    minTimeout := jsOrNum o.minTimeout 1000
    maxTimeout := jsOrNum o.maxTimeout 30000
    factor := jsOrNum o.factor 2
    randomize := jsNullishBool o.randomize true }

/-- The error classification made by onFailedAttempt in withRetry: an
error is retried exactly when its message mentions 429, 502, 503, 504
or 500. -/
def retryableMessage (m : String) : Bool :=
  strIncludes m "429" || strIncludes m "502" || strIncludes m "503" ||
    strIncludes m "504" || strIncludes m "500"

/-- Execution of p-retry: `op n` is the outcome of the n-th invocation of
the wrapped operation (1-based).  The result is paired with the number of
invocations performed.  With retriesLeft = 0 a failed attempt is surfaced
directly; otherwise a retryable failure leads to another attempt and a
non-retryable failure aborts (AbortError) with the original error. -/
def pRetryGo (op : Nat → Except String α) : Nat → Nat → Except String α × Nat
  | 0, attempt =>
    match op attempt with
    | .ok a => (.ok a, attempt)
    | .error e => (.error e, attempt)
  | r + 1, attempt =>
    match op attempt with
    | .ok a => (.ok a, attempt)
    | .error e =>
      if retryableMessage e then pRetryGo op r (attempt + 1)
      else (.error e, attempt)

/-- withRetry from src/retry-utils.ts: resolve the options, then run the
operation under p-retry.  Returns the final outcome together with the
total number of invocations of the operation. -/
def withRetryModel (op : Nat → Except String α) (options : RetryOptions) :
    Except String α × Nat :=
  pRetryGo op (resolveRetryOptions options).retries 1

/-- C3: under the default retry options, an operation that fails on every
invocation with a retryable message is invoked six times in total (the
initial attempt plus the five retries that p-retry performs when its
retries option is 5), and the sixth and last error is surfaced.  The
source comments and the specification instead announce five invocations
in total, so the code contradicts its own documentation. -/
theorem withRetry_retryable_exhaustion_six_attempts {α : Type}
    (msgs : Nat → String) (h : ∀ n, retryableMessage (msgs n) = true) :
    withRetryModel (fun n => (Except.error (msgs n) : Except String α))
        DEFAULT_RETRY_OPTIONS
      = (Except.error (msgs 6), 6) := by
  simp [withRetryModel, resolveRetryOptions, jsOrNum, DEFAULT_RETRY_OPTIONS,
    pRetryGo, h]

/-- Closed instance of the six-invocation run, at an operation whose every
attempt fails with an HTTP 429 message. -/
theorem withRetry_retryable_exhaustion_six_attempts_witness :
    withRetryModel (fun _ => (Except.error "HTTP error! status: 429" :
        Except String Unit)) DEFAULT_RETRY_OPTIONS
      = (Except.error "HTTP error! status: 429", 6) :=
  withRetry_retryable_exhaustion_six_attempts (α := Unit)
    (fun _ => "HTTP error! status: 429")
    (by intro n
        show retryableMessage "HTTP error! status: 429" = true
        decide)

/-- C8: an operation whose first invocation fails with a non-retryable
message (no 429, 500, 502, 503 or 504 in it) is invoked exactly once,
whatever the options, and the error is propagated to the caller. -/
theorem withRetry_nonretryable_single_attempt
    (op : Nat → Except String α) (e : String) (options : RetryOptions)
    (h1 : op 1 = .error e) (h2 : retryableMessage e = false) :
    withRetryModel op options = (Except.error e, 1) := by
  unfold withRetryModel
  cases hr : (resolveRetryOptions options).retries with
  | zero => simp [pRetryGo, h1]
  | succ r => simp [pRetryGo, h1, h2]

/-- Closed instance of the single-invocation abort: a 401 error is
surfaced after exactly one invocation under the default options. -/
theorem withRetry_nonretryable_single_attempt_witness :
    withRetryModel (fun _ => Except.error "HTTP error! status: 401")
        (α := Unit) DEFAULT_RETRY_OPTIONS
      = (Except.error "HTTP error! status: 401", 1) :=
  withRetry_nonretryable_single_attempt
    (fun _ => Except.error "HTTP error! status: 401")
    "HTTP error! status: 401" DEFAULT_RETRY_OPTIONS rfl (by decide)

/-- C9: a numeric retry option explicitly set to 0 is falsy for `||` and
falls back to the defaults 5, 1000, 30000 and 2, so no caller can obtain
zero retries or a zero backoff delay; randomize goes through `??` and so
an explicit false is honoured. -/
theorem retry_options_zero_falls_back (o : RetryOptions) :
    (o.retries = some 0 → (resolveRetryOptions o).retries = 5) ∧
    (o.minTimeout = some 0 → (resolveRetryOptions o).minTimeout = 1000) ∧
    (o.maxTimeout = some 0 → (resolveRetryOptions o).maxTimeout = 30000) ∧
    (o.factor = some 0 → (resolveRetryOptions o).factor = 2) ∧
    (resolveRetryOptions o).retries ≠ 0 ∧
    (resolveRetryOptions o).minTimeout ≠ 0 ∧
    (o.randomize = some false → (resolveRetryOptions o).randomize = false) := by
  refine ⟨?_, ?_, ?_, ?_, ?_, ?_, ?_⟩ <;>
    simp only [resolveRetryOptions, jsOrNum, jsNullishBool]
  · intro h; simp [h]
  · intro h; simp [h]
  · intro h; simp [h]
  · intro h; simp [h]
  · cases h : o.retries with
    | none => simp
    | some n => by_cases hn : n = 0 <;> simp [hn]
  · cases h : o.minTimeout with
    | none => simp
    | some n => by_cases hn : n = 0 <;> simp [hn]
  · intro h; simp [h]

/-- Closed instance of the zero-option fallback, at options with every
numeric field set to 0 and randomize set to false. -/
theorem retry_options_zero_falls_back_witness :
    resolveRetryOptions
        { retries := some 0, minTimeout := some 0, maxTimeout := some 0,
          factor := some 0, randomize := some false }
      = { retries := 5, minTimeout := 1000, maxTimeout := 30000,
          factor := 2, randomize := false } := by
  have h := retry_options_zero_falls_back
    { retries := some 0, minTimeout := some 0, maxTimeout := some 0,
      factor := some 0, randomize := some false }
  have h1 := h.1 rfl
  have h2 := h.2.1 rfl
  have h3 := h.2.2.1 rfl
  have h4 := h.2.2.2.1 rfl
  have h5 := h.2.2.2.2.2.2 rfl
  cases hres : resolveRetryOptions
    { retries := some 0, minTimeout := some 0, maxTimeout := some 0,
      factor := some 0, randomize := some false }
  simp_all

/-! ## History manager (src/history.ts, the variant with prompt caching)

A ConversationMessage as stored in the history file: user messages carry
role "user" and no speaker, AI responses carry a speaker tag ("openai" or
"anthropic") and no role.  The class methods mutate this.history and then
return the rendered array; the embedding makes the mutation explicit by
returning the new history alongside the rendered messages. -/

/-- One stored history message. -/
structure ConversationMessage where
  role : Option String := none
  speaker : Option String := none
  content : String
deriving DecidableEq, Repr

/-- One message in the OpenAI wire format. -/
structure OpenAIMessage where
  role : String
  content : String
deriving DecidableEq, Repr

/-- Content of an Anthropic wire message: either a plain string or a
single text block carrying the ephemeral cache_control hint. -/
inductive AnthropicContent where
  | plain (text : String)
  | cached (text : String)
deriving DecidableEq, Repr

/-- One message in the Anthropic wire format. -/
structure AnthropicMessage where
  role : String
  content : AnthropicContent
deriving DecidableEq, Repr

/-- The text carried by an Anthropic message content. -/
def anthropicText : AnthropicContent → String
  | .plain t => t
  | .cached t => t

/-- Whether an Anthropic message carries the ephemeral caching hint. -/
def isCached (m : AnthropicMessage) : Bool :=
  match m.content with
  | .cached _ => true
  | .plain _ => false

/-- The user message appended by both render methods for the outgoing
text (this.addMessage with role user). -/
def userMessage (m : String) : ConversationMessage :=
  { role := some "user", speaker := none, content := m }

/-- The system prompt string built by buildOpenAIMessages. -/
def systemPrompt (topic : String) : String :=
  "You are participating in a conversation with another AI about: " ++ topic ++
    ". This is an ongoing discussion - respond naturally and build upon what has been said before. Keep your responses concise but meaningful."

/-- Conversion of one stored message to the OpenAI format: an anthropic
speaker becomes assistant, otherwise a truthy role is kept, otherwise the
message becomes a user message. -/
def renderOpenAI (msg : ConversationMessage) : OpenAIMessage :=
  if msg.speaker = some "anthropic" then { role := "assistant", content := msg.content }
  else
    match msg.role with
    | some r =>
      if r = "" then { role := "user", content := msg.content }
      else { role := r, content := msg.content }
    | none => { role := "user", content := msg.content }

/-- buildOpenAIMessages: append the outgoing text as a user message, then
render a leading system message followed by the whole updated history.
Returns the updated history together with the rendered array. -/
def buildOpenAIMessages (history : List ConversationMessage)
    (newMessage topic : String) :
    List ConversationMessage × List OpenAIMessage :=
  let h := history ++ [userMessage newMessage]
  (h, { role := "system", content := systemPrompt topic } :: h.map renderOpenAI)

/-- Role assigned by buildAnthropicMessages to one stored message: an
openai speaker becomes assistant, otherwise a truthy role other than
system is kept, otherwise the message becomes a user message. -/
def renderAnthropicRole (msg : ConversationMessage) : String :=
  if msg.speaker = some "openai" then "assistant"
  else
    match msg.role with
    | some r => if r = "" ∨ r = "system" then "user" else r
    | none => "user"

/-- The per-message loop of buildAnthropicMessages: total is the length
of the updated history, i the index of the current message and used the
number of cache blocks spent so far.  A message is cached when fewer than
4 blocks are used, it is not among the last 2 messages (i < total - 2),
and the whole history holds more than 6 messages. -/
def buildAnthropicGo (total : Nat) :
    List ConversationMessage → Nat → Nat → List AnthropicMessage
  | [], _, _ => []
  | msg :: rest, i, used =>
    { role := renderAnthropicRole msg,
      content :=
        if (used < 4 ∧ i < total - 2) ∧ 6 < total then .cached msg.content
        else .plain msg.content } ::
      buildAnthropicGo total rest (i + 1)
        (if (used < 4 ∧ i < total - 2) ∧ 6 < total then used + 1 else used)

/-- buildAnthropicMessages: append the outgoing text as a user message,
then render the whole updated history with the limited cache control.
Returns the updated history together with the rendered array. -/
def buildAnthropicMessages (history : List ConversationMessage)
    (newMessage : String) :
    List ConversationMessage × List AnthropicMessage :=
  let h := history ++ [userMessage newMessage]
  (h, buildAnthropicGo h.length h 0 0)

@[simp] theorem isCached_cached (r t : String) :
    isCached { role := r, content := .cached t } = true := rfl

@[simp] theorem isCached_plain (r t : String) :
    isCached { role := r, content := .plain t } = false := rfl

theorem renderAnthropicRole_ne_system (msg : ConversationMessage) :
    renderAnthropicRole msg ≠ "system" := by
  unfold renderAnthropicRole
  by_cases hs : msg.speaker = some "openai"
  · simp [hs]
  · rw [if_neg hs]
    cases msg.role with
    | none => simp
    | some r =>
      by_cases he : r = "" ∨ r = "system"
      · simp [he]
      · push_neg at he
        simp only [he.1, he.2, or_self, if_false]
        exact he.2

theorem buildAnthropicGo_roles (total : Nat)
    (msgs : List ConversationMessage) (i used : Nat) :
    ∀ a ∈ buildAnthropicGo total msgs i used, a.role ≠ "system" := by
  induction msgs generalizing i used with
  | nil => intro a ha; simp [buildAnthropicGo] at ha
  | cons msg rest ih =>
    intro a ha
    simp only [buildAnthropicGo, List.mem_cons] at ha
    rcases ha with rfl | ha
    · exact renderAnthropicRole_ne_system msg
    · exact ih _ _ a ha

theorem buildAnthropicGo_length (total : Nat)
    (msgs : List ConversationMessage) (i used : Nat) :
    (buildAnthropicGo total msgs i used).length = msgs.length := by
  induction msgs generalizing i used with
  | nil => rfl
  | cons msg rest ih => simp [buildAnthropicGo, ih]

theorem buildAnthropicGo_count (total : Nat)
    (msgs : List ConversationMessage) (i used : Nat) :
    (buildAnthropicGo total msgs i used).countP isCached ≤ 4 - used := by
  induction msgs generalizing i used with
  | nil => simp [buildAnthropicGo]
  | cons msg rest ih =>
    simp only [buildAnthropicGo, List.countP_cons]
    by_cases hdo : (used < 4 ∧ i < total - 2) ∧ 6 < total
    · rw [if_pos hdo, if_pos hdo]
      have hrec := ih (i + 1) (used + 1)
      have hused : used < 4 := hdo.1.1
      simp only [isCached_cached, if_pos]
      omega
    · rw [if_neg hdo, if_neg hdo]
      have hrec := ih (i + 1) used
      simp only [isCached_plain, Bool.false_eq_true, if_false]
      omega

theorem buildAnthropicGo_no_cache_small (total : Nat)
    (hsmall : ¬ 6 < total)
    (msgs : List ConversationMessage) (i used : Nat) :
    ∀ a ∈ buildAnthropicGo total msgs i used, isCached a = false := by
  induction msgs generalizing i used with
  | nil => intro a ha; simp [buildAnthropicGo] at ha
  | cons msg rest ih =>
    intro a ha
    have hfalse : ¬ ((used < 4 ∧ i < total - 2) ∧ 6 < total) := by
      intro hcon; exact hsmall hcon.2
    simp only [buildAnthropicGo, if_neg hfalse, List.mem_cons] at ha
    rcases ha with rfl | ha
    · exact isCached_plain _ _
    · exact ih (i + 1) used a ha

theorem buildAnthropicGo_last_two (total : Nat)
    (msgs : List ConversationMessage) (i used : Nat) (j : Nat)
    (hj : j < (buildAnthropicGo total msgs i used).length)
    (hlast : total - 2 ≤ i + j) :
    isCached ((buildAnthropicGo total msgs i used).get ⟨j, hj⟩) = false := by
  induction msgs generalizing i used j with
  | nil => simp [buildAnthropicGo] at hj
  | cons msg rest ih =>
    cases j with
    | zero =>
      have hfew : ¬ ((used < 4 ∧ i < total - 2) ∧ 6 < total) := by
        intro hcon; omega
      simp [buildAnthropicGo, if_neg hfew]
    | succ j =>
      have hj2 : j < (buildAnthropicGo total rest (i + 1)
          (if (used < 4 ∧ i < total - 2) ∧ 6 < total then used + 1
           else used)).length := by
        simpa [buildAnthropicGo] using hj
      have hlast2 : total - 2 ≤ (i + 1) + j := by omega
      have hrec := ih (i + 1)
        (if (used < 4 ∧ i < total - 2) ∧ 6 < total then used + 1 else used)
        j hj2 hlast2
      simpa [buildAnthropicGo] using hrec

/-- C5: for every history and outgoing message, the Anthropic rendering
contains no system-role entry; when the message count after the append
exceeds 6, at most 4 messages carry the ephemeral caching hint and the
last 2 messages never do; with 6 or fewer messages nothing is cached. -/
theorem anthropic_render_no_system_and_cache_bounds
    (history : List ConversationMessage) (newMessage : String) :
    (∀ a ∈ (buildAnthropicMessages history newMessage).2, a.role ≠ "system") ∧
    (6 < history.length + 1 →
      (buildAnthropicMessages history newMessage).2.countP isCached ≤ 4 ∧
      ∀ (j : Nat) (hj : j < (buildAnthropicMessages history newMessage).2.length),
        (buildAnthropicMessages history newMessage).2.length - 2 ≤ j →
        isCached ((buildAnthropicMessages history newMessage).2.get ⟨j, hj⟩)
          = false) ∧
    (history.length + 1 ≤ 6 →
      ∀ a ∈ (buildAnthropicMessages history newMessage).2, isCached a = false) := by
  have htot : (history ++ [userMessage newMessage]).length
      = history.length + 1 := by simp
  refine ⟨?_, ?_, ?_⟩
  · exact buildAnthropicGo_roles _ _ 0 0
  · intro _
    refine ⟨?_, ?_⟩
    · have := buildAnthropicGo_count
        (history ++ [userMessage newMessage]).length
        (history ++ [userMessage newMessage]) 0 0
      simpa [buildAnthropicMessages] using this
    · intro j hj hlast
      apply buildAnthropicGo_last_two
      have hlen : (buildAnthropicMessages history newMessage).2.length
          = (history ++ [userMessage newMessage]).length :=
        buildAnthropicGo_length _ _ 0 0
      omega
  · intro hle
    apply buildAnthropicGo_no_cache_small
    omega

/-- Closed instances of the cache bounds: with seven messages after the
append at most four are cached, and with one message nothing is cached. -/
theorem anthropic_render_cache_bounds_witness :
    (buildAnthropicMessages (List.replicate 6 (userMessage "x")) "y").2.countP
        isCached ≤ 4 ∧
    ∀ a ∈ (buildAnthropicMessages ([] : List ConversationMessage) "y").2,
      isCached a = false :=
  ⟨((anthropic_render_no_system_and_cache_bounds
      (List.replicate 6 (userMessage "x")) "y").2.1 (by simp)).1,
   (anthropic_render_no_system_and_cache_bounds
      ([] : List ConversationMessage) "y").2.2 (by simp)⟩

/-! ## Histories reachable through the programs own operations

The orchestrated handlers touch the history only through addMessage with
role user (inside both render methods) and addAIResponse with a speaker
tag, so every reachable history is built from these two appends. -/

/-- Histories reachable through addMessage with role user and
addAIResponse with an openai or anthropic speaker tag. -/
inductive Reachable : List ConversationMessage → Prop
  | nil : Reachable []
  | user (h : List ConversationMessage) (c : String) : Reachable h →
      Reachable (h ++ [{ role := some "user", speaker := none, content := c }])
  | ai (h : List ConversationMessage) (s c : String) :
      s = "openai" ∨ s = "anthropic" → Reachable h →
      Reachable (h ++ [{ role := none, speaker := some s, content := c }])

/-- Shape of every message in a reachable history. -/
def wfMessage (msg : ConversationMessage) : Prop :=
  (msg.role = some "user" ∧ msg.speaker = none) ∨
    (msg.role = none ∧
      (msg.speaker = some "openai" ∨ msg.speaker = some "anthropic"))

theorem reachable_wf {h : List ConversationMessage} (hr : Reachable h) :
    ∀ msg ∈ h, wfMessage msg := by
  induction hr with
  | nil => intro msg hm; simp at hm
  | user h c _ ih =>
    intro msg hm
    rcases List.mem_append.mp hm with hm | hm
    · exact ih msg hm
    · simp only [List.mem_singleton] at hm
      subst hm
      left
      exact ⟨rfl, rfl⟩
  | ai h s c hs _ ih =>
    intro msg hm
    rcases List.mem_append.mp hm with hm | hm
    · exact ih msg hm
    · simp only [List.mem_singleton] at hm
      subst hm
      right
      refine ⟨rfl, ?_⟩
      rcases hs with rfl | rfl
      · left; rfl
      · right; rfl

theorem renderOpenAI_role_ne_system_of_wf (msg : ConversationMessage)
    (hwf : wfMessage msg) : (renderOpenAI msg).role ≠ "system" := by
  unfold renderOpenAI
  rcases hwf with ⟨hrole, hspk⟩ | ⟨hrole, hspk⟩
  · rw [if_neg (by simp [hspk]), hrole]
    simp
  · rcases hspk with hspk | hspk
    · rw [if_neg (by simp [hspk]), hrole]
      simp
    · rw [if_pos hspk]
      simp

/-- C6: on every history reachable through the programs own operations,
the OpenAI rendering contains exactly one system-role message and it is
the first entry of the returned array. -/
theorem openai_render_single_system
    (history : List ConversationMessage) (newMessage topic : String)
    (hr : Reachable history) :
    (buildOpenAIMessages history newMessage topic).2.countP
        (fun om => decide (om.role = "system")) = 1 ∧
    ((buildOpenAIMessages history newMessage topic).2.head?.map
        OpenAIMessage.role) = some "system" := by
  constructor
  · have hwf : ∀ msg ∈ history ++ [userMessage newMessage], wfMessage msg := by
      intro msg hm
      rcases List.mem_append.mp hm with hm | hm
      · exact reachable_wf hr msg hm
      · simp only [List.mem_singleton] at hm
        subst hm
        left
        exact ⟨rfl, rfl⟩
    have hzero : ((history ++ [userMessage newMessage]).map
        renderOpenAI).countP (fun om => decide (om.role = "system")) = 0 := by
      rw [List.countP_eq_zero]
      intro a ha
      rcases List.mem_map.mp ha with ⟨msg, hmsg, rfl⟩
      simpa using renderOpenAI_role_ne_system_of_wf msg (hwf msg hmsg)
    simp only [buildOpenAIMessages, List.countP_cons, hzero]
    simp
  · rfl

/-- Closed instance of the single leading system message, on the empty
reachable history. -/
theorem openai_render_single_system_witness :
    (buildOpenAIMessages ([] : List ConversationMessage) "hi" "t").2.countP
        (fun om => decide (om.role = "system")) = 1 :=
  (openai_render_single_system [] "hi" "t" Reachable.nil).1

theorem renderOpenAI_content (msg : ConversationMessage) :
    (renderOpenAI msg).content = msg.content := by
  unfold renderOpenAI
  split
  · rfl
  · split
    · split <;> rfl
    · rfl

theorem buildAnthropicGo_texts (total : Nat)
    (msgs : List ConversationMessage) (i used : Nat) :
    (buildAnthropicGo total msgs i used).map (fun a => anthropicText a.content)
      = msgs.map (fun msg => msg.content) := by
  induction msgs generalizing i used with
  | nil => rfl
  | cons msg rest ih =>
    simp only [buildAnthropicGo, List.map_cons, ih]
    congr 1
    split <;> rfl

/-- C7: each render method first appends the outgoing text to the stored
history as a user message; the rendered array lists the contents of the
updated history in order (behind the leading system message for the
OpenAI shape), so the final entry carries the new message and the
relative order of all previously appended messages is preserved. -/
theorem render_appends_and_preserves_order
    (history : List ConversationMessage) (newMessage topic : String) :
    (buildOpenAIMessages history newMessage topic).1
      = history ++ [userMessage newMessage] ∧
    (buildAnthropicMessages history newMessage).1
      = history ++ [userMessage newMessage] ∧
    (buildOpenAIMessages history newMessage topic).2.map
        (fun om => om.content)
      = systemPrompt topic ::
          (history ++ [userMessage newMessage]).map (fun msg => msg.content) ∧
    (buildAnthropicMessages history newMessage).2.map
        (fun a => anthropicText a.content)
      = (history ++ [userMessage newMessage]).map (fun msg => msg.content) ∧
    ((buildOpenAIMessages history newMessage topic).2.map
        (fun om => om.content)).getLast? = some newMessage ∧
    ((buildAnthropicMessages history newMessage).2.map
        (fun a => anthropicText a.content)).getLast? = some newMessage := by
  have hcomp : (fun om => OpenAIMessage.content om) ∘ renderOpenAI
      = fun msg => msg.content := by
    funext msg
    exact renderOpenAI_content msg
  have hopenai : (buildOpenAIMessages history newMessage topic).2.map
      (fun om => om.content)
      = systemPrompt topic ::
          (history ++ [userMessage newMessage]).map (fun msg => msg.content) := by
    simp only [buildOpenAIMessages, List.map_cons, List.map_map, hcomp]
  have hanth : (buildAnthropicMessages history newMessage).2.map
      (fun a => anthropicText a.content)
      = (history ++ [userMessage newMessage]).map (fun msg => msg.content) :=
    buildAnthropicGo_texts _ _ 0 0
  have hsplit : (history ++ [userMessage newMessage]).map
      (fun msg => msg.content)
      = history.map (fun msg => msg.content) ++ [newMessage] := by
    simp [userMessage]
  refine ⟨rfl, rfl, hopenai, hanth, ?_, ?_⟩
  · rw [hopenai, hsplit, ← List.cons_append, List.getLast?_concat]
  · rw [hanth, hsplit, List.getLast?_concat]

/-! ## The conversation loop (src/conversation.ts, main)

The while loop runs while turnCount < maxTurns: it increments the counter
and runs the LLM1 turn, breaks if turnCount >= maxTurns, otherwise awaits
the fixed delay, increments the counter, runs the LLM2 turn, and awaits
the delay again before re-testing the loop condition.  We record the trace
of turn and delay events; the loop is written with explicit fuel (one unit
per loop iteration, so maxTurns + 1 units are plenty) to keep the
definition structurally recursive. -/

/-- The two participant slots. -/
inductive Pos where
  | first
  | second
deriving DecidableEq, Repr

/-- Observable events of the conversation loop: a numbered turn by one of
the participants, or one await of the fixed inter-message delay. -/
inductive ConvEvent where
  | turn (k : Nat) (p : Pos)
  | delay
deriving DecidableEq, Repr

/-- The participant that produces turn k: LLM1 takes the odd turns. -/
def posOfTurn (k : Nat) : Pos := if k % 2 = 1 then .first else .second

/-- One-to-one image of the while loop of main: c is the current value of
turnCount and n the configured max turns. -/
def convLoopFuel : Nat → Nat → Nat → List ConvEvent
  | 0, _, _ => []
  | fuel + 1, c, n =>
    if c < n then
      if n ≤ c + 1 then [ConvEvent.turn (c + 1) Pos.first]
      else
        ConvEvent.turn (c + 1) Pos.first :: ConvEvent.delay ::
          ConvEvent.turn (c + 2) Pos.second :: ConvEvent.delay ::
            convLoopFuel fuel (c + 2) n
    else []

/-- The event trace of a session configured with n max turns. -/
def sessionEvents (n : Nat) : List ConvEvent :=
  convLoopFuel (n + 1) 0 n

/-- The trace asserted by the specification: one delay after every turn
except the very last turn of the session. -/
def claimedEvents (n : Nat) : List ConvEvent :=
  (List.range' 1 n).flatMap
    (fun k => ConvEvent.turn k (posOfTurn k) ::
      if k < n then [ConvEvent.delay] else [])

/-- The trace the code actually produces: one delay after every turn
except the last turn when the configured count is odd; after an even
final turn the delay is still awaited. -/
def actualEvents (n : Nat) : List ConvEvent :=
  (List.range' 1 n).flatMap
    (fun k => ConvEvent.turn k (posOfTurn k) ::
      if k < n ∨ n % 2 = 0 then [ConvEvent.delay] else [])

theorem convLoopFuel_spec (fuel c n : Nat) (hfuel : n ≤ 2 * fuel + c)
    (heven : c % 2 = 0) (hle : c ≤ n) :
    convLoopFuel fuel c n
      = (List.range' (c + 1) (n - c)).flatMap
          (fun k => ConvEvent.turn k (posOfTurn k) ::
            if k < n ∨ n % 2 = 0 then [ConvEvent.delay] else []) := by
  induction fuel generalizing c with
  | zero =>
    have hcn : c = n := by omega
    subst hcn
    simp [convLoopFuel]
  | succ fuel ih =>
    by_cases hc : c < n
    · by_cases h1 : n ≤ c + 1
      · have hn : n = c + 1 := by omega
        have hpos : posOfTurn (c + 1) = Pos.first := by
          unfold posOfTurn
          rw [if_pos (by omega)]
        have hrange : n - c = 1 := by omega
        rw [hrange]
        simp only [convLoopFuel, if_pos hc, if_pos h1, List.range'_one,
          List.flatMap_cons, List.flatMap_nil, hpos]
        rw [if_neg (by omega)]
        rfl
      · have h2 : c + 2 ≤ n := by omega
        have hrec := ih (c + 2) (by omega) (by omega) h2
        have hrange : n - c = (n - (c + 2)) + 1 + 1 := by omega
        rw [hrange, List.range'_succ, List.range'_succ]
        simp only [List.flatMap_cons]
        have hp1 : posOfTurn (c + 1) = Pos.first := by
          unfold posOfTurn
          rw [if_pos (by omega)]
        have hp2 : posOfTurn (c + 2) = Pos.second := by
          unfold posOfTurn
          rw [if_neg (by omega)]
        have hd1 : ((c + 1 < n ∨ n % 2 = 0) : Prop) := by omega
        have hd2 : ((c + 2 < n ∨ n % 2 = 0) : Prop) := by omega
        rw [if_pos hd1, if_pos hd2]
        simp only [convLoopFuel, if_pos hc, if_neg h1, hp1, hp2]
        rw [hrec]
        have harith : c + 1 + 1 + 1 = c + 3 := by omega
        simp [harith]
    · have hcn : c = n := by omega
      subst hcn
      simp [convLoopFuel]

/-- C2 counterexample: with the minimal configuration of 2 turns the
delay is awaited after the final turn as well, so the trace differs from
the one the claim asserts (which has no delay after turn 2). -/
theorem session_delay_after_final_turn_counterexample :
    sessionEvents 2
      = [ConvEvent.turn 1 Pos.first, ConvEvent.delay,
         ConvEvent.turn 2 Pos.second, ConvEvent.delay] ∧
    sessionEvents 2 ≠ claimedEvents 2 := by
  constructor
  · rfl
  · decide

/-- C2 amended: for every configured max turns in [2, 50] the delay is
awaited exactly once after each turn before the last, and after the final
turn the delay is awaited exactly when the configured count is even (the
break skips it only when LLM1 takes the final turn). -/
theorem session_delay_between_turns (n : Nat) (h2 : 2 ≤ n) (h50 : n ≤ 50) :
    sessionEvents n = actualEvents n := by
  have := convLoopFuel_spec (n + 1) 0 n (by omega) (by omega) (by omega)
  simpa [sessionEvents, actualEvents] using this

/-- Closed instance of the amended delay trace at 3 turns: the odd final
turn is not followed by a delay. -/
theorem session_delay_between_turns_witness :
    sessionEvents 3 = actualEvents 3 :=
  session_delay_between_turns 3 (by decide) (by decide)

/-! ## Per-turn files and transcript assembly (src/conversation.ts)

Each successful turn k makes the active handler write a JSON metadata
file named sessionId_turn_k_provider.json (src/openai-handler.ts and
src/anthropic-handler.ts); the orchestrator writes sessionId.log before
the loop and the handlers keep sessionId_history.json and their own log
files alongside.  After the loop, collectTurnData lists the log
directory, keeps the names that start with sessionId_turn_ and end with
.json, sorts them with the default lexicographic string sort, and parses
each file, silently skipping the ones that fail to parse. -/

/-- The two supported providers. -/
inductive Provider where
  | openai
  | anthropic
deriving DecidableEq, Repr

/-- The provider name as written into speaker fields and file names. -/
def providerName : Provider → String
  | .openai => "openai"
  | .anthropic => "anthropic"

/-- The fields of a parsed turn file that the transcript assembly uses:
the 1-based turn index, the provider tag of the speaker, the total token
count and the response time. -/
structure TurnMetadata where
  turn : Nat
  speaker : String
  tokensTotal : Nat
  responseTimeMs : Nat
deriving DecidableEq, Repr

/-- One file of the log directory: its name and the turn metadata its
content parses to, or none when reading or parsing the file fails. -/
structure FileEntry where
  name : String
  parsed : Option TurnMetadata
deriving DecidableEq, Repr

/-- Insertion step of the lexicographic sort of file names. -/
def insertByName (e : FileEntry) : List FileEntry → List FileEntry
  | [] => [e]
  | f :: fs => if strLeB e.name f.name then e :: f :: fs else f :: insertByName e fs

/-- Model of the default JavaScript sort applied to the file names: a
comparison sort under the code-unit order; on the pairwise distinct names
involved every such sort returns this unique sorted arrangement. -/
def sortByName : List FileEntry → List FileEntry
  | [] => []
  | f :: fs => insertByName f (sortByName fs)

/-- The filename filter of collectTurnData. -/
def matchesTurnFile (sessionId : String) (f : FileEntry) : Bool :=
  strStartsWith f.name (sessionId ++ "_turn_") && strEndsWith f.name ".json"

/-- Result shape of collectTurnData. -/
structure CollectResult where
  turns : List TurnMetadata
  totalTokens : Nat
  openaiTokens : Nat
  anthropicTokens : Nat
deriving DecidableEq, Repr

/-- The per-file loop of collectTurnData: a file that parses contributes
its record and its tokens (attributed to openai or anthropic by its
speaker tag); a file that fails to parse only logs to the console and is
skipped. -/
def collectLoop : List FileEntry → CollectResult
  | [] => { turns := [], totalTokens := 0, openaiTokens := 0, anthropicTokens := 0 }
  | f :: fs =>
    let r := collectLoop fs
    match f.parsed with
    | none => r
    | some td =>
      { turns := td :: r.turns,
        totalTokens := td.tokensTotal + r.totalTokens,
        openaiTokens :=
          (if td.speaker = "openai" then td.tokensTotal else 0) + r.openaiTokens,
        anthropicTokens :=
          (if td.speaker = "anthropic" then td.tokensTotal else 0) +
            r.anthropicTokens }

/-- collectTurnData from src/conversation.ts over a modelled directory
listing: filter the turn files of the session, sort the names, parse. -/
def collectTurnData (dir : List FileEntry) (sessionId : String) : CollectResult :=
  collectLoop (sortByName (dir.filter (matchesTurnFile sessionId)))

/-- The provider speaking at turn k: LLM1 takes the odd turns. -/
def turnProvider (k : Nat) (p1 p2 : Provider) : Provider :=
  if k % 2 = 1 then p1 else p2

/-- Name of the metadata file written for turn k. -/
def turnFileName (sessionId : String) (k : Nat) (p : Provider) : String :=
  sessionId ++ "_turn_" ++ toString k ++ "_" ++ providerName p ++ ".json"

/-- The metadata record written for turn k (token count and response time
are arbitrary session data, abstracted as functions of the turn). -/
def turnRecord (k : Nat) (p : Provider) (tok rt : Nat → Nat) : TurnMetadata :=
  { turn := k, speaker := providerName p, tokensTotal := tok k,
    responseTimeMs := rt k }

/-- The file written for turn k of a successful session. -/
def turnFile (sessionId : String) (p1 p2 : Provider) (tok rt : Nat → Nat)
    (k : Nat) : FileEntry :=
  { name := turnFileName sessionId k (turnProvider k p1 p2),
    parsed := some (turnRecord k (turnProvider k p1 p2) tok rt) }

/-- The log directory after a successful session of n turns: the session
log, the shared history file, the two handler logs, and one metadata file
per turn 1..n. -/
def sessionFiles (sessionId : String) (n : Nat) (p1 p2 : Provider)
    (tok rt : Nat → Nat) : List FileEntry :=
  { name := sessionId ++ ".log", parsed := none } ::
  { name := sessionId ++ "_history.json", parsed := none } ::
  { name := sessionId ++ "_openai.log", parsed := none } ::
  { name := sessionId ++ "_anthropic.log", parsed := none } ::
  (List.range' 1 n).map (turnFile sessionId p1 p2 tok rt)

theorem insertByName_perm (e : FileEntry) (l : List FileEntry) :
    (insertByName e l).Perm (e :: l) := by
  induction l with
  | nil => exact List.Perm.refl _
  | cons f fs ih =>
    by_cases h : strLeB e.name f.name
    · simp [insertByName, h]
    · simp only [insertByName, h, Bool.false_eq_true, if_false]
      exact (ih.cons f).trans (List.Perm.swap e f fs)

theorem sortByName_perm (l : List FileEntry) : (sortByName l).Perm l := by
  induction l with
  | nil => exact List.Perm.refl _
  | cons f fs ih =>
    exact (insertByName_perm f (sortByName fs)).trans (ih.cons f)

theorem collectLoop_turns (l : List FileEntry) :
    (collectLoop l).turns = l.filterMap (fun f => f.parsed) := by
  induction l with
  | nil => rfl
  | cons f fs ih =>
    simp only [collectLoop]
    cases h : f.parsed with
    | none => simp [List.filterMap_cons, h, ih]
    | some td => simp [List.filterMap_cons, h, ih]

theorem strStartsWith_shared (p a b : String) :
    strStartsWith (p ++ a) (p ++ b) = listLeads b.data a.data := by
  simp [strStartsWith, String.data_append, listLeads_append_same]

theorem strStartsWith_of_append (p a : String) :
    strStartsWith (p ++ a) p = true := by
  simp [strStartsWith, String.data_append, listLeads_self_append]

theorem strEndsWith_of_append (a p : String) :
    strEndsWith (a ++ p) p = true := by
  simp [strEndsWith, String.data_append, List.reverse_append,
    listLeads_self_append]

theorem matchesTurnFile_turnFile (sessionId : String) (p1 p2 : Provider)
    (tok rt : Nat → Nat) (k : Nat) :
    matchesTurnFile sessionId (turnFile sessionId p1 p2 tok rt k) = true := by
  unfold matchesTurnFile turnFile
  have hname : turnFileName sessionId k (turnProvider k p1 p2)
      = (sessionId ++ "_turn_") ++
          (toString k ++ "_" ++ providerName (turnProvider k p1 p2) ++ ".json") := by
    simp [turnFileName, String.append_assoc]
  have hstart : strStartsWith
      (turnFileName sessionId k (turnProvider k p1 p2))
      (sessionId ++ "_turn_") = true := by
    rw [hname]
    exact strStartsWith_of_append _ _
  have hend : strEndsWith (turnFileName sessionId k (turnProvider k p1 p2))
      ".json" = true := by
    unfold turnFileName
    exact strEndsWith_of_append _ _
  simp [hstart, hend]

theorem sessionFiles_filter (sessionId : String) (n : Nat) (p1 p2 : Provider)
    (tok rt : Nat → Nat) :
    (sessionFiles sessionId n p1 p2 tok rt).filter (matchesTurnFile sessionId)
      = (List.range' 1 n).map (turnFile sessionId p1 p2 tok rt) := by
  have h1 : matchesTurnFile sessionId { name := sessionId ++ ".log", parsed := none }
      = false := by
    unfold matchesTurnFile
    rw [show strStartsWith (sessionId ++ ".log") (sessionId ++ "_turn_")
      = listLeads "_turn_".data ".log".data from strStartsWith_shared ..]
    have hfalse : listLeads "_turn_".data ".log".data = false := by decide
    simp [hfalse]
  have h2 : matchesTurnFile sessionId
      { name := sessionId ++ "_history.json", parsed := none } = false := by
    unfold matchesTurnFile
    rw [show strStartsWith (sessionId ++ "_history.json") (sessionId ++ "_turn_")
      = listLeads "_turn_".data "_history.json".data from strStartsWith_shared ..]
    have hfalse : listLeads "_turn_".data "_history.json".data = false := by decide
    simp [hfalse]
  have h3 : matchesTurnFile sessionId
      { name := sessionId ++ "_openai.log", parsed := none } = false := by
    unfold matchesTurnFile
    rw [show strStartsWith (sessionId ++ "_openai.log") (sessionId ++ "_turn_")
      = listLeads "_turn_".data "_openai.log".data from strStartsWith_shared ..]
    have hfalse : listLeads "_turn_".data "_openai.log".data = false := by decide
    simp [hfalse]
  have h4 : matchesTurnFile sessionId
      { name := sessionId ++ "_anthropic.log", parsed := none } = false := by
    unfold matchesTurnFile
    rw [show strStartsWith (sessionId ++ "_anthropic.log") (sessionId ++ "_turn_")
      = listLeads "_turn_".data "_anthropic.log".data from strStartsWith_shared ..]
    have hfalse : listLeads "_turn_".data "_anthropic.log".data = false := by decide
    simp [hfalse]
  simp only [sessionFiles, List.filter_cons, h1, h2, h3, h4]
  simp only [Bool.false_eq_true, if_false, List.filter_map]
  rw [List.filter_eq_self.mpr]
  intro k _
  exact matchesTurnFile_turnFile sessionId p1 p2 tok rt k

/-- C1 amended: for every max turns value in [2, 50], a successful
session yields a turns list with exactly n records whose indices are
exactly 1..n (each exactly once, as a permutation) and whose odd indices
were spoken by participant first (LLM1) and even indices by participant
second; the list itself is ordered by the lexicographic file-name sort,
which is strictly increasing in the turn index only up to nine turns. -/
theorem collect_turns_permutation (sessionId : String) (n : Nat)
    (p1 p2 : Provider) (tok rt : Nat → Nat) (_h2 : 2 ≤ n) (_h50 : n ≤ 50) :
    (collectTurnData (sessionFiles sessionId n p1 p2 tok rt) sessionId).turns.length
        = n ∧
    ((collectTurnData (sessionFiles sessionId n p1 p2 tok rt) sessionId).turns.map
        (fun t => t.turn)).Perm (List.range' 1 n) ∧
    ∀ t ∈ (collectTurnData (sessionFiles sessionId n p1 p2 tok rt) sessionId).turns,
      t.speaker = providerName (turnProvider t.turn p1 p2) := by
  have hfilter := sessionFiles_filter sessionId n p1 p2 tok rt
  have hperm1 : (sortByName ((sessionFiles sessionId n p1 p2 tok rt).filter
      (matchesTurnFile sessionId))).Perm
      ((List.range' 1 n).map (turnFile sessionId p1 p2 tok rt)) := by
    rw [hfilter]
    exact sortByName_perm _
  have hturns : (collectTurnData (sessionFiles sessionId n p1 p2 tok rt)
      sessionId).turns
      = (sortByName ((sessionFiles sessionId n p1 p2 tok rt).filter
          (matchesTurnFile sessionId))).filterMap (fun f => f.parsed) := by
    unfold collectTurnData
    exact collectLoop_turns _
  have hpermT : ((collectTurnData (sessionFiles sessionId n p1 p2 tok rt)
      sessionId).turns).Perm
      ((List.range' 1 n).map
        (fun k => turnRecord k (turnProvider k p1 p2) tok rt)) := by
    rw [hturns]
    have := List.Perm.filterMap (fun f => f.parsed) hperm1
    apply this.trans
    rw [List.filterMap_map]
    have heq : ((fun f => f.parsed) ∘ turnFile sessionId p1 p2 tok rt)
        = fun k => some (turnRecord k (turnProvider k p1 p2) tok rt) := by
      funext k
      rfl
    rw [heq]
    rw [show (fun k => some (turnRecord k (turnProvider k p1 p2) tok rt))
      = some ∘ (fun k => turnRecord k (turnProvider k p1 p2) tok rt) from rfl]
    rw [List.filterMap_eq_map]
  refine ⟨?_, ?_, ?_⟩
  · rw [hpermT.length_eq]
    simp
  · have := hpermT.map (fun t => t.turn)
    apply this.trans
    rw [List.map_map]
    have heq : ((fun t => TurnMetadata.turn t) ∘
        fun k => turnRecord k (turnProvider k p1 p2) tok rt) = id := by
      funext k
      rfl
    rw [heq, List.map_id]
  · intro t ht
    have := hpermT.mem_iff.mp ht
    rcases List.mem_map.mp this with ⟨k, _, rfl⟩
    rfl

/-- Closed instance of the amended transcript shape at two turns. -/
theorem collect_turns_permutation_witness :
    (collectTurnData (sessionFiles "s" 2 Provider.openai Provider.anthropic
        (fun _ => 0) (fun _ => 0)) "s").turns.length = 2 :=
  (collect_turns_permutation "s" 2 Provider.openai Provider.anthropic
    (fun _ => 0) (fun _ => 0) (by decide) (by decide)).1

/-- C1 counterexample: at ten turns the lexicographic sort of the file
names puts turn 10 before turn 1, so the turn indices of the assembled
transcript are not in strictly increasing order. -/
theorem collect_turns_order_counterexample :
    ((collectTurnData (sessionFiles "s" 10 Provider.openai Provider.anthropic
        (fun _ => 0) (fun _ => 0)) "s").turns.map (fun t => t.turn))
      = [10, 1, 2, 3, 4, 5, 6, 7, 8, 9] ∧
    ((collectTurnData (sessionFiles "s" 10 Provider.openai Provider.anthropic
        (fun _ => 0) (fun _ => 0)) "s").turns.map (fun t => t.turn))
      ≠ List.range' 1 10 := by
  constructor
  · rfl
  · decide

/-! ## Command-line validation in main (src/conversation.ts)

main reads topic and max_turns from the argument list, parses max_turns
with parseInt, and rejects when maxTurns < 2 or maxTurns > 50.  parseInt
returns NaN on a string with no leading integer, and in JavaScript both
comparisons are false on NaN, so such a value passes the check.  The range
check runs before loadConfig, before the log directory is created and
before the session log is written; the conversation loop runs after. -/

/-- JavaScript whitespace accepted by parseInt (the common ASCII cases). -/
def isJsSpace (c : Char) : Bool :=
  c == ' ' || c == '\t' || c == '\n' || c == '\r' ||
    c.toNat == 11 || c.toNat == 12

/-- Value of a decimal digit. -/
def decDigit (c : Char) : Option Nat :=
  if 48 ≤ c.toNat ∧ c.toNat ≤ 57 then some (c.toNat - 48) else none

/-- Value of a hexadecimal digit. -/
def hexDigit (c : Char) : Option Nat :=
  if 48 ≤ c.toNat ∧ c.toNat ≤ 57 then some (c.toNat - 48)
  else if 97 ≤ c.toNat ∧ c.toNat ≤ 102 then some (c.toNat - 87)
  else if 65 ≤ c.toNat ∧ c.toNat ≤ 70 then some (c.toNat - 55)
  else none

/-- Accumulate the longest leading run of digits; none when there is no
digit at all (parseInt then yields NaN). -/
def takeDigits (dv : Char → Option Nat) (base : Nat) :
    List Char → Option Nat → Option Nat
  | [], acc => acc
  | c :: rest, acc =>
    match dv c with
    | none => acc
    | some d => takeDigits dv base rest (some ((acc.getD 0) * base + d))

/-- Model of JavaScript parseInt(s) with no radix argument: skip leading
whitespace, read an optional sign, switch to base 16 after a 0x or 0X
prefix, then read the longest run of digits; none models NaN. -/
def parseIntJS (s : String) : Option Int :=
  let cs := s.data.dropWhile isJsSpace
  let signAndRest : Int × List Char :=
    match cs with
    | '-' :: r => (-1, r)
    | '+' :: r => (1, r)
    | r => (1, r)
  let body : Option Nat :=
    match signAndRest.2 with
    | '0' :: x :: r =>
      if x == 'x' || x == 'X' then takeDigits hexDigit 16 r none
      else takeDigits decDigit 10 ('0' :: x :: r) none
    | r => takeDigits decDigit 10 r none
  body.map (fun v => signAndRest.1 * (v : Int))

/-- JavaScript comparison x < c where x may be NaN: false on NaN. -/
def jsLt (x : Option Int) (c : Int) : Bool :=
  match x with
  | none => false
  | some v => decide (v < c)

/-- JavaScript comparison x > c where x may be NaN: false on NaN. -/
def jsGt (x : Option Int) (c : Int) : Bool :=
  match x with
  | none => false
  | some v => decide (c < v)

/-- Side effects of the start of main that the claim speaks about. -/
inductive SideEffect where
  | mkdirLogs
  | sessionLogWrite
deriving DecidableEq, Repr

/-- Outcome of the argument-handling prefix of main. -/
inductive StartOutcome where
  | usageError
  | configError
  | started (maxTurns : Option Int)
deriving DecidableEq, Repr

/-- The argument-handling prefix of main: fewer than two arguments print
usage and exit; a parsed max_turns below 2 or above 50 prints the range
error and exits before any file is touched; otherwise the configuration
is loaded, the logs directory is created, the session log header is
written and the conversation loop starts. -/
def mainStart (args : List String) : List SideEffect × StartOutcome :=
  if args.length < 2 then ([], .usageError)
  else
    let maxTurns := parseIntJS (args.getD 1 "")
    if jsLt maxTurns 2 || jsGt maxTurns 50 then ([], .configError)
    else ([.mkdirLogs, .sessionLogWrite], .started maxTurns)

/-- C4 counterexample: the command-line value "abc" is outside the
integer range [2, 50] (parseInt yields NaN on it), yet main does not
reject it: both NaN comparisons are false, so the run proceeds, creates
the log directory and writes the session log header. -/
theorem reject_out_of_range_counterexample :
    parseIntJS "abc" = none ∧
    mainStart ["t", "abc"]
      = ([SideEffect.mkdirLogs, SideEffect.sessionLogWrite],
         StartOutcome.started none) := by
  constructor
  · rfl
  · rfl

/-- C4 amended: every max_turns value that parseInt reads as an integer
outside [2, 50] (in particular 0 and 1) is rejected with the
configuration error before anything happens: no file is written, no
directory created, no network touched; a value that parseInt cannot read
at all (NaN) escapes the check instead. -/
theorem reject_out_of_range (topic v : String) (rest : List String) (n : Int)
    (hparse : parseIntJS v = some n) (hout : n < 2 ∨ 50 < n) :
    mainStart (topic :: v :: rest) = ([], StartOutcome.configError) := by
  unfold mainStart
  rw [if_neg (by simp)]
  simp only [List.getD, List.get?_cons_succ, List.get?_cons_zero,
    Option.getD_some]
  rw [hparse]
  have : (jsLt (some n) 2 || jsGt (some n) 50) = true := by
    rcases hout with h | h
    · simp [jsLt, h]
    · simp [jsGt, h]
  rw [this]
  rfl

/-- Closed instance: requesting 0 turns is rejected with no side
effects. -/
theorem reject_out_of_range_witness :
    mainStart ["t", "0"] = ([], StartOutcome.configError) :=
  reject_out_of_range "t" "0" [] 0 rfl (Or.inl (by decide))

/-! ## Comprehensive transcript (createComprehensiveJson) -/

/-- The transcript fields relevant here: createComprehensiveJson always
stamps status completed, copies the configured and actual turn counts it
is given, and embeds the turns list and token total collected from the
per-turn files. -/
structure Transcript where
  status : String
  maxTurns : Nat
  actualTurns : Nat
  turns : List TurnMetadata
  totalTokens : Nat
deriving DecidableEq, Repr

/-- createComprehensiveJson from src/conversation.ts, restricted to the
fields above. -/
def createComprehensive (maxTurns actualTurns : Nat) (res : CollectResult) :
    Transcript :=
  { status := "completed", maxTurns := maxTurns, actualTurns := actualTurns,
    turns := res.turns, totalTokens := res.totalTokens }

/-- A log directory of a three-turn session in which the file of turn 2
fails to parse (collectTurnData catches the error, logs to the console
and continues). -/
def corruptedDir : List FileEntry :=
  [{ name := "s_turn_1_openai.json",
     parsed := some { turn := 1, speaker := "openai", tokensTotal := 10,
                      responseTimeMs := 5 } },
   { name := "s_turn_2_anthropic.json", parsed := none },
   { name := "s_turn_3_openai.json",
     parsed := some { turn := 3, speaker := "openai", tokensTotal := 20,
                      responseTimeMs := 7 } }]

/-- C10: collectTurnData silently drops every matching file that fails to
parse and keeps the rest in order (its turns list is exactly the parsed
records of the sorted matching files), and createComprehensiveJson stamps
status completed whatever was collected; on a three-turn session whose
second turn file is corrupted the transcript is completed with
actual_turns 3 but only the two surviving records. -/
theorem collect_skips_unparseable :
    (∀ (dir : List FileEntry) (sessionId : String),
      (collectTurnData dir sessionId).turns
        = (sortByName (dir.filter (matchesTurnFile sessionId))).filterMap
            (fun f => f.parsed)) ∧
    (∀ (maxTurns actualTurns : Nat) (res : CollectResult),
      (createComprehensive maxTurns actualTurns res).status = "completed") ∧
    (createComprehensive 3 3 (collectTurnData corruptedDir "s")).status
      = "completed" ∧
    (createComprehensive 3 3 (collectTurnData corruptedDir "s")).actualTurns
      = 3 ∧
    (createComprehensive 3 3 (collectTurnData corruptedDir "s")).turns.map
        (fun t => t.turn) = [1, 3] ∧
    (createComprehensive 3 3 (collectTurnData corruptedDir "s")).turns.length
      < (createComprehensive 3 3 (collectTurnData corruptedDir "s")).actualTurns := by
  refine ⟨?_, ?_, rfl, rfl, rfl, ?_⟩
  · intro dir sessionId
    exact collectLoop_turns _
  · intro maxTurns actualTurns res
    rfl
  · decide
